import Mathlib

/-!
Verification of the geometry and KiCad-export core of the pcb2kicad
repository (src/hid/kicad/kicad.c and src/misc.c), as a shallow embedding.

Conventions used throughout:
* C `int`/`Location` coordinates are modelled as `ℤ`; `BDimension`
  thickness values (nonnegative) as `ℕ`, so that C's truncating division
  `t / 2` coincides with `ℕ` division.
* C `double` values are modelled as `ℚ`.  The transcendental functions
  `cos`/`sin` (at degree arguments) and `atan2` (already converted to
  degrees) are passed around as explicit function parameters
  `cosd sind : ℤ → ℚ` and `atan2deg : ℚ → ℚ → ℚ`; every theorem below
  holds for an arbitrary interpretation of these parameters, and the
  concrete counterexamples instantiate them with their exact values at
  the right-angle arguments actually used.
* C strings are modelled as `List Char`.
-/

namespace Pcb2Kicad

/-- Axis-aligned bounding box, fields as in `BoxType` of the PCB code
(`X1 Y1` upper-left corner, `X2 Y2` lower-right corner). -/
structure Box where
  x1 : ℤ
  y1 : ℤ
  x2 : ℤ
  y2 : ℤ
deriving DecidableEq

/-- Smallest box containing both arguments (the accumulated
`MIN`/`MAX` updates the C code performs per primitive). -/
def boxUnion (a b : Box) : Box :=
  { x1 := min a.x1 b.x1, y1 := min a.y1 b.y1
    x2 := max a.x2 b.x2, y2 := max a.y2 b.y2 }

/-- Union of a nonempty family of boxes, seeded with its first member. -/
def unionBoxes (b : Box) (l : List Box) : Box :=
  l.foldl boxUnion b

/-- Degenerate box of a single point. -/
def pointBox (x y : ℤ) : Box := ⟨x, y, x, y⟩

/-- Grow a box by `w` on every side (half-thickness padding in the code). -/
def inflateBox (b : Box) (w : ℤ) : Box :=
  ⟨b.x1 - w, b.y1 - w, b.x2 + w, b.y2 + w⟩

/-- C cast `(int)q` of a `double`: truncation toward zero.  `Int.tdiv`
is T-division, which matches C's integer division. -/
def ctrunc (q : ℚ) : ℤ :=
  Int.tdiv q.num (q.den : ℤ)

/-- Embeds the scan loop of `GetLayerGroupNumberByNumber`
(misc.c:905-919): `g` is the running `group` counter; the list holds,
for each group, its member layer indices
`Entries[group][0 .. Number[group]-1]`. -/
def getLayerGroupAux (layer : ℕ) (g : ℕ) : List (List ℕ) → ℕ
  | [] => g
  | ent :: rest => if layer ∈ ent then g else getLayerGroupAux layer (g + 1) rest

/-- `GetLayerGroupNumberByNumber` (misc.c:905-919): the first group whose
entry list contains the layer; after an unsuccessful scan the final value
of the loop counter (the number of groups, `MAX_LAYER`) is returned. -/
def getLayerGroupNumberByNumber (groups : List (List ℕ)) (layer : ℕ) : ℕ :=
  getLayerGroupAux layer 0 groups

/-- Embeds `while(*netname == ' ') netname++;` (kicad.c:521). -/
def trimLeadingSpaces : List Char → List Char
  | ' ' :: rest => trimLeadingSpaces rest
  | l => l

/-- `net_descriptor` (kicad.c:126-130).  The `char net_name[16]` field
stores at most the first 16 characters of the copied name
(`strncpy(..., netname, 16)`); when all 16 bytes are used, the zero byte
that terminates the printed string is the first byte of the following,
still zeroed, `calloc`ed table slot. -/
structure NetDescriptor where
  net_id : ℕ
  net_name : List Char
deriving DecidableEq

/-- The net entries built from the netlist menu names (kicad.c:518-538):
the running `netnum` is the first argument; each name is trimmed of
leading spaces and stored through `strncpy(net_name, netname, 16)`. -/
def kicadNetEntries : ℕ → List (List Char) → List NetDescriptor
  | _, [] => []
  | netnum, nm :: rest =>
      ⟨netnum, (trimLeadingSpaces nm).take 16⟩ :: kicadNetEntries (netnum + 1) rest

/-- The complete net table of one export (kicad.c:511-538): the first
entry is written by `strcpy(net_name, "0")` and printed as net id 0,
then one entry per netlist menu name in declaration order. -/
def kicadNetTable (menuNames : List (List Char)) : List NetDescriptor :=
  ⟨0, ['0']⟩ :: kicadNetEntries 1 menuNames

/-- An element outline line (`ELEMENTLINE_LOOP` in
`SetElementBoundingBox`, misc.c:246-257). -/
structure KLine where
  x1 : ℤ
  y1 : ℤ
  x2 : ℤ
  y2 : ℤ
  thickness : ℕ
deriving DecidableEq

/-- An element pin (`PIN_LOOP` in `SetElementBoundingBox`,
misc.c:258-265). -/
structure KPin where
  x : ℤ
  y : ℤ
  thickness : ℕ
deriving DecidableEq

/-- An element pad, with its two endpoints (`PAD_LOOP` in
`SetElementBoundingBox`, misc.c:302-313). -/
structure KPad where
  x1 : ℤ
  y1 : ℤ
  x2 : ℤ
  y2 : ℤ
  thickness : ℕ
deriving DecidableEq

/-- An arc (`ArcType`): centre, width/height radii, integer start angle
and sweep (`arc->StartAngle`, `arc->Delta`), stroke thickness. -/
structure KArc where
  x : ℤ
  y : ℤ
  width : ℤ
  height : ℤ
  startAngle : ℤ
  delta : ℤ
  thickness : ℕ
deriving DecidableEq

/-- The angles visited by a C loop `for (a = start; a < stop; a += step)`;
`fuel` is an upper bound on the iteration count supplied by the caller,
so that the recursion is structural. -/
def forAngles : ℕ → ℤ → ℤ → ℤ → List ℤ
  | 0, _, _, _ => []
  | fuel + 1, start, stop, step =>
      if start < stop then start :: forAngles fuel (start + step) stop step else []

/-- The arc contribution inside `SetElementBoundingBox` (misc.c:266-301):
limits are initialised from both endpoint angles, then the loop over
angles `n*180` extends the x-limits and the loop over angles `n*180+90`
extends the y-limits; finally the limits are scaled by width/height,
truncated to `int` and recentred on the arc centre.  `cosd a` stands for
`cos(M180 * a)` of the C code (cosine at `a` degrees), `sind` likewise. -/
def elementArcBox (cosd sind : ℤ → ℚ) (arc : KArc) : Box :=
  let a1 := arc.startAngle
  let a2 := arc.startAngle + arc.delta
  let xstart := (Int.tdiv a1 180 + 1) * 180
  let ystart := (Int.tdiv (a1 + 90) 180) * 180 + 90
  let xs := forAngles ((a2 - xstart).toNat + 1) xstart a2 180
  let ys := forAngles ((a2 - ystart).toNat + 1) ystart a2 180
  let fminx := xs.foldl (fun m a => min (-(cosd a)) m) (min (-(cosd a1)) (-(cosd a2)))
  let fmaxx := xs.foldl (fun m a => max (-(cosd a)) m) (max (-(cosd a1)) (-(cosd a2)))
  let fminy := ys.foldl (fun m a => min (sind a) m) (min (sind a1) (sind a2))
  let fmaxy := ys.foldl (fun m a => max (sind a) m) (max (sind a1) (sind a2))
  { x1 := ctrunc (fminx * (arc.width : ℚ)) + arc.x
    y1 := ctrunc (fminy * (arc.height : ℚ)) + arc.y
    x2 := ctrunc (fmaxx * (arc.width : ℚ)) + arc.x
    y2 := ctrunc (fmaxy * (arc.height : ℚ)) + arc.y }

/-- Box contributed by one element line in `SetElementBoundingBox`
(misc.c:246-257): both endpoints, padded by half the thickness. -/
def lineBox (l : KLine) : Box :=
  { x1 := min (l.x1 - (l.thickness / 2 : ℕ)) (l.x2 - (l.thickness / 2 : ℕ))
    y1 := min (l.y1 - (l.thickness / 2 : ℕ)) (l.y2 - (l.thickness / 2 : ℕ))
    x2 := max (l.x1 + (l.thickness / 2 : ℕ)) (l.x2 + (l.thickness / 2 : ℕ))
    y2 := max (l.y1 + (l.thickness / 2 : ℕ)) (l.y2 + (l.thickness / 2 : ℕ)) }

/-- Box contributed by one pin in `SetElementBoundingBox`
(misc.c:258-265): the centre padded by half the thickness. -/
def pinBox (p : KPin) : Box :=
  { x1 := p.x - (p.thickness / 2 : ℕ), y1 := p.y - (p.thickness / 2 : ℕ)
    x2 := p.x + (p.thickness / 2 : ℕ), y2 := p.y + (p.thickness / 2 : ℕ) }

/-- Box contributed by one pad in `SetElementBoundingBox`
(misc.c:302-313): both endpoints, padded by half the thickness. -/
def elementPadBox (p : KPad) : Box :=
  { x1 := min (p.x1 - (p.thickness / 2 : ℕ)) (p.x2 - (p.thickness / 2 : ℕ))
    y1 := min (p.y1 - (p.thickness / 2 : ℕ)) (p.y2 - (p.thickness / 2 : ℕ))
    x2 := max (p.x1 + (p.thickness / 2 : ℕ)) (p.x2 + (p.thickness / 2 : ℕ))
    y2 := max (p.y1 + (p.thickness / 2 : ℕ)) (p.y2 + (p.thickness / 2 : ℕ)) }

/-- The geometric constituents of one element that
`SetElementBoundingBox` folds over (misc.c:227-360).  The boxes of the
three name texts are data here: they are computed by
`SetTextBoundingBox` from the font before the fold and are not part of
the fold itself. -/
structure KElementGeom where
  lines : List KLine
  pins : List KPin
  pads : List KPad
  arcs : List KArc
deriving DecidableEq

/-- The per-primitive boxes of an element, in the iteration order of
`SetElementBoundingBox` (lines, pins, arcs, pads). -/
def elementPrimBoxes (cosd sind : ℤ → ℚ) (e : KElementGeom) : List Box :=
  e.lines.map lineBox ++ e.pins.map pinBox ++
    e.arcs.map (elementArcBox cosd sind) ++ e.pads.map elementPadBox

/-- `SetElementBoundingBox` (misc.c:227-360): the `MIN`/`MAX`
accumulation over all constituent primitives, started from the sentinel
values `minx = miny = MAX_COORD`, `maxx = maxy = 0`; `maxCoordV` stands
for the configuration constant `MAX_COORD`.  Name texts are not
included (the code comment: "do not include the elementnames bounding
box which is handled seperatly"). -/
def setElementBoundingBox (maxCoordV : ℤ) (cosd sind : ℤ → ℚ) (e : KElementGeom) : Box :=
  (elementPrimBoxes cosd sind e).foldl boxUnion ⟨maxCoordV, maxCoordV, 0, 0⟩

/-- The `ELEMENT_TYPE` case of `GetObjectBoundingBox` (misc.c:971-984):
the element's stored bounding box, widened by the bounding box of the
name-on-pcb (reference designator) text — and only by that text. -/
def getObjectBoundingBoxElement (maxCoordV : ℤ) (cosd sind : ℤ → ℚ)
    (e : KElementGeom) (refdesBox : Box) : Box :=
  let box := setElementBoundingBox maxCoordV cosd sind e
  { x1 := if refdesBox.x1 < box.x1 then refdesBox.x1 else box.x1
    y1 := if refdesBox.y1 < box.y1 then refdesBox.y1 else box.y1
    x2 := if refdesBox.x2 > box.x2 then refdesBox.x2 else box.x2
    y2 := if refdesBox.y2 > box.y2 then refdesBox.y2 else box.y2 }

/-- `GetArcEnds` (misc.c:1155-1168): `X1 Y1` is the point at the start
angle, `X2 Y2` the point at the start angle plus delta.  Note that the
code scales both coordinates by `Arc->Width`.  The float products are
truncated on assignment to the integer `Location` fields. -/
def getArcEnds (cosd sind : ℤ → ℚ) (arc : KArc) : Box :=
  { x1 := ctrunc ((arc.x : ℚ) - (arc.width : ℚ) * cosd arc.startAngle)
    y1 := ctrunc ((arc.y : ℚ) + (arc.width : ℚ) * sind arc.startAngle)
    x2 := ctrunc ((arc.x : ℚ) - (arc.width : ℚ) * cosd (arc.startAngle + arc.delta))
    y2 := ctrunc ((arc.y : ℚ) + (arc.width : ℚ) * sind (arc.startAngle + arc.delta)) }

/-- `SetArcBoundingBox` (misc.c:1041-1060): normalise the endpoint box
from `GetArcEnds` with the `temp` swaps, then pad by `Thickness / 2` on
every side.  There is no sampling of interior right angles here. -/
def setArcBoundingBox (cosd sind : ℤ → ℚ) (arc : KArc) : Box :=
  let box := getArcEnds cosd sind arc
  let w : ℤ := (arc.thickness / 2 : ℕ)
  { x1 := min box.x1 box.x2 - w, y1 := min box.y1 box.y2 - w
    x2 := max box.x1 box.x2 + w, y2 := max box.y1 box.y2 + w }

/-- The multiples of 90 degrees strictly between `a1` and `a2`,
enumerated in increasing order (claim C5's sampling set). -/
def mult90StrictlyBetween (a1 a2 : ℤ) : List ℤ :=
  ((List.range ((a2 - a1).toNat / 90 + 1)).map
    (fun k => 90 * (Int.fdiv a1 90 + 1) + 90 * (k : ℤ))).filter
    (fun m => decide (m < a2))

/-- One extension step of the box claimed by C5: widen the box by the
unit-circle coordinate at angle `m`, scaled by the arc width/height and
recentred on the arc centre (the same form the element arc code uses). -/
def extendBoxAngle (cosd sind : ℤ → ℚ) (arc : KArc) (b : Box) (m : ℤ) : Box :=
  { x1 := min b.x1 (ctrunc (-(cosd m) * (arc.width : ℚ)) + arc.x)
    y1 := min b.y1 (ctrunc (sind m * (arc.height : ℚ)) + arc.y)
    x2 := max b.x2 (ctrunc (-(cosd m) * (arc.width : ℚ)) + arc.x)
    y2 := max b.y2 (ctrunc (sind m * (arc.height : ℚ)) + arc.y) }

/-- The arc bounding box as claim C5 words it (this definition follows
the claim, not the source, for the purpose of comparison): start from
the boxes of both endpoints, extend at every multiple of 90 degrees
strictly between start angle and start angle plus delta, then add
half-thickness padding on each side. -/
def claimedArcBoundingBox (cosd sind : ℤ → ℚ) (arc : KArc) : Box :=
  let e := getArcEnds cosd sind arc
  let b0 := boxUnion (pointBox e.x1 e.y1) (pointBox e.x2 e.y2)
  let b1 := (mult90StrictlyBetween arc.startAngle (arc.startAngle + arc.delta)).foldl
    (extendBoxAngle cosd sind arc) b0
  inflateBox b1 ((arc.thickness / 2 : ℕ) : ℤ)

/-- Exact values of the degree cosine at the only arguments the C5
counterexample evaluates it at (0 and 180 degrees); 0 elsewhere. -/
def cosRight : ℤ → ℚ :=
  fun a => if a = 0 then 1 else if a = 180 then -1 else 0

/-- Exact values of the degree sine at the only arguments the C5
counterexample evaluates it at (0, 90 and 180 degrees). -/
def sinRight : ℤ → ℚ :=
  fun a => if a = 90 then 1 else 0

/-- The concrete arc of the C5 counterexample: a half-circle from 0 to
180 degrees of radius 1, centred at the origin, thickness 2. -/
def arcC5 : KArc :=
  { x := 0, y := 0, width := 1, height := 1, startAngle := 0, delta := 180, thickness := 2 }

/-- A polygon as the exporter sees it (`PolygonType`): the flat point
list and the hole start indices `HoleIndex[0 .. HoleIndexN-1]`. -/
structure KPolygon where
  points : List (ℤ × ℤ)
  holeIndex : List ℕ
deriving DecidableEq

/-- The points a C loop `for (n = a; n < b; n++)` emits from the
polygon's point array. -/
def sliceK (pts : List (ℤ × ℤ)) (a b : ℕ) : List (ℤ × ℤ) :=
  (pts.drop a).take (b - a)

/-- The points of the single filled-zone block (kicad.c:1140-1161):
`PointN = HoleIndexN > 0 ? HoleIndex[0] : PointN`, then points
`0 .. PointN-1`. -/
def filledZonePoints (p : KPolygon) : List (ℤ × ℤ) :=
  match p.holeIndex with
  | [] => p.points.take p.points.length
  | h :: _ => p.points.take h

/-- The point lists of the keepout blocks, one per hole
(kicad.c:1169-1228): hole `h` runs from `HoleIndex[h]` to
`HoleIndex[h+1]` (or to `PointN` for the last hole). -/
def keepoutBlocks (pts : List (ℤ × ℤ)) : List ℕ → List (List (ℤ × ℤ))
  | [] => []
  | [h] => [sliceK pts h pts.length]
  | h :: h2 :: rest => sliceK pts h h2 :: keepoutBlocks pts (h2 :: rest)

/-- All blocks emitted for one polygon (kicad.c:1100-1229): the filled
zone first, then the keepout zones in hole order. -/
def polyZoneBlocks (p : KPolygon) : List (List (ℤ × ℤ)) :=
  filledZonePoints p :: keepoutBlocks p.points p.holeIndex

/-- The per-candidate reference-pin data `kicad_get_rotation` collects
(kicad.c:330-391): position, and the `pinangle` entry. -/
structure RefCand where
  number : List Char
  x : ℚ
  y : ℚ
  angle : ℚ
deriving DecidableEq

/-- A pin as seen by `kicad_get_rotation`'s `PIN_LOOP`
(kicad.c:351-366). -/
structure KPinRef where
  number : List Char
  x : ℚ
  y : ℚ
deriving DecidableEq

/-- A pad as seen by `kicad_get_rotation`'s `PAD_LOOP`
(kicad.c:368-391), with its two endpoints. -/
structure KPadRef where
  number : List Char
  x1 : ℚ
  y1 : ℚ
  x2 : ℚ
  y2 : ℚ
deriving DecidableEq

/-- Candidate data recorded for a pin: its position, `pinangle = 0`
("pins have no notion of angle", kicad.c:361). -/
def pinCand (p : KPinRef) : RefCand :=
  ⟨p.number, p.x, p.y, 0⟩

/-- Candidate data recorded for a pad: the pad centre, and
`pinangle = (180/pi) * atan2(p1.y - p2.y, p2.x - p1.x)`
(kicad.c:376-387); `atan2deg` stands for that degree-valued atan2. -/
def padCand (atan2deg : ℚ → ℚ → ℚ) (p : KPadRef) : RefCand :=
  ⟨p.number, (p.x1 + p.x2) / 2, (p.y1 + p.y2) / 2, atan2deg (p.y1 - p.y2) (p.x2 - p.x1)⟩

/-- An element as `kicad_get_rotation` sees it: mark point, side, the
optional `"xy-fixed-rotation"` attribute (already parsed by `atof`),
pins and pads. -/
structure KElement where
  markX : ℚ
  markY : ℚ
  front : Bool
  fixedRotation : Option ℚ
  pins : List KPinRef
  pads : List KPadRef
deriving DecidableEq

/-- `pin_cnt` of `kicad_get_rotation`: every pin and pad is counted
(kicad.c:353, 370). -/
def pinCount (e : KElement) : ℕ :=
  e.pins.length + e.pads.length

/-- The candidate slot the loops of `kicad_get_rotation` leave for one
reference name: pins are scanned first, pads second, and each match
overwrites the slot, so the slot holds the last match in that order. -/
def refMatch (atan2deg : ℚ → ℚ → ℚ) (e : KElement) (nm : List Char) : Option RefCand :=
  ((e.pins.map pinCand ++ e.pads.map (padCand atan2deg)).filter
    (fun c => c.number == nm)).getLast?

/-- `reference_pin_names` (kicad.c:312), in priority order. -/
def refNames : List (List Char) :=
  [['1'], ['2'], ['A', '1'], ['A', '2'], ['B', '1'], ['B', '2']]

/-- The angle-bucket table exactly as claim C3 words it: `d` is
`atan2(-pin1y, pin1x)` in degrees; with exactly two pins `d<-175` gives
0, `d<-85` gives 90, `d<5` gives 180, `d<95` gives 270, otherwise 0;
with more than two pins `d<-100` gives 90, `d<-10` gives 180, `d<80`
gives 270, `d<170` gives 0, otherwise 90. -/
def claimAngleBuckets (d : ℚ) (morethan2pins : Bool) : ℚ :=
  if morethan2pins then
    if d < -100 then 90
    else if d < -10 then 180
    else if d < 80 then 270
    else if d < 170 then 0
    else 90
  else
    if d < -175 then 0
    else if d < -85 then 90
    else if d < 5 then 180
    else if d < 95 then 270
    else 0

/-- `xyToAngle` (kicad.c:266-308): `d = atan2(-y, x) * 180 / pi`, then
the IPC-7351 sector tables for the 2-pin and multi-pin cases. -/
def xyToAngle (atan2deg : ℚ → ℚ → ℚ) (x y : ℚ) (morethan2pins : Bool) : ℚ :=
  let d := atan2deg (-y) x
  if morethan2pins then
    if d < -100 then 90
    else if d < -10 then 180
    else if d < 80 then 270
    else if d < 170 then 0
    else 90
  else
    if d < -175 then 0
    else if d < -85 then 90
    else if d < 5 then 180
    else if d < 95 then 270
    else 0

/-- The candidate scan of `kicad_get_rotation` (kicad.c:399-427): take
the first reference name with a recorded candidate; recentre it on the
mark, flip the x offset for back elements; with a single pin use the
candidate's own angle, otherwise classify a nonzero offset with
`xyToAngle`; a zero offset moves on to the next candidate; `theta`
stays 0 if the scan is exhausted. -/
def findThetaLoop (atan2deg : ℚ → ℚ → ℚ) (e : KElement) : List (List Char) → ℚ
  | [] => 0
  | nm :: rest =>
    match refMatch atan2deg e nm with
    | none => findThetaLoop atan2deg e rest
    | some c =>
      if pinCount e = 1 then c.angle
      else
        if (if e.front then c.x - e.markX else -(c.x - e.markX)) ≠ 0 ∨ c.y - e.markY ≠ 0 then
          xyToAngle atan2deg (if e.front then c.x - e.markX else -(c.x - e.markX))
            (c.y - e.markY) (decide (2 < pinCount e))
        else findThetaLoop atan2deg e rest

/-- The candidate the scan of `kicad_get_rotation` settles on (the
`rpindex` at which the loop breaks), with the same skipping rules as
`findThetaLoop`. -/
def chosenRefCand (atan2deg : ℚ → ℚ → ℚ) (e : KElement) : List (List Char) → Option RefCand
  | [] => none
  | nm :: rest =>
    match refMatch atan2deg e nm with
    | none => chosenRefCand atan2deg e rest
    | some c =>
      if pinCount e = 1 then some c
      else
        if (if e.front then c.x - e.markX else -(c.x - e.markX)) ≠ 0 ∨ c.y - e.markY ≠ 0 then
          some c
        else chosenRefCand atan2deg e rest

/-- `kicad_get_rotation` (kicad.c:314-431): the parsed
`"xy-fixed-rotation"` attribute wins; otherwise, with at least one
pin or pad, the reference-pin scan decides; otherwise 0. -/
def kicadGetRotation (atan2deg : ℚ → ℚ → ℚ) (e : KElement) : ℚ :=
  match e.fixedRotation with
  | some r => r
  | none => if 0 < pinCount e then findThetaLoop atan2deg e refNames else 0

/-- One emitted piece of the output document, at the granularity the
claims need. -/
inductive Chunk where
  | header
  | pageSettings
  | layersTable
  | netEntry (id : ℕ) (name : List Char)
  | padOut (obj : ℕ) (netId : ℕ)
  | viaOut (obj : ℕ) (netId : ℕ)
  | filledZone (pts : List (ℤ × ℤ))
  | keepoutZone (pts : List (ℤ × ℤ))
  | closing
deriving DecidableEq

/-- Whether a chunk is a net-table entry. -/
def isNetChunk : Chunk → Bool
  | Chunk.netEntry _ _ => true
  | _ => false

/-- The net-table lines of the document (kicad.c:511-538), one per
table entry, in table order. -/
def netTableChunks (menuNames : List (List Char)) : List Chunk :=
  (kicadNetTable menuNames).map (fun d => Chunk.netEntry d.net_id d.net_name)

/-- A pin or pad of the element loop of `kicad_print`: the object
identity, and the outcome of the name-based netlist scan for its
`"<refdes>-<number>"` connectivity key (kicad.c:693-707) — `some i`
when the key occurs in menu `i`, `none` when no menu entry matches. -/
structure Seed where
  id : ℕ
  nameNet : Option ℕ
deriving DecidableEq

/-- The mutable state `kicad_print` and `kicad_add_net` thread: the
`VISITFLAG` and `FOUNDFLAG` marks on board objects, the
`kicad_net_assign` table (each entry holds the stored net-descriptor
reference, `none` standing for the NULL pointer), whether the two
`calloc`ed tables have been `free`d, and the emitted output. -/
structure ExportState where
  visited : List ℕ
  found : List ℕ
  netAssign : List (ℕ × Option ℕ)
  netAssignFreed : Bool
  netDescsFreed : Bool
  output : List Chunk
deriving DecidableEq

/-- The state at the top of `kicad_print` (kicad.c:445-451): both
tables freshly allocated, flags as the board came in, nothing written. -/
def initExportState (visited0 found0 : List ℕ) : ExportState :=
  { visited := visited0, found := found0, netAssign := []
    netAssignFreed := false, netDescsFreed := false, output := [] }

/-- One iteration of the object loops of `kicad_add_net`
(kicad.c:164-248): an object that is not yet `VISITFLAG`ged but is
`FOUNDFLAG`ged is appended to the assignment table with the seed's net
descriptor and marked visited. -/
def addNetStep (found : List ℕ) (net : Option ℕ) (s : ExportState) (obj : ℕ) : ExportState :=
  if obj ∉ s.visited ∧ obj ∈ found then
    { s with visited := obj :: s.visited, netAssign := s.netAssign ++ [(obj, net)] }
  else s

/-- Modelled from the spec: `LookupConnectionByPin` (declared in
find.h, implementation not part of this repository) marks every object
electrically reachable from the seed — the seed included — with
`FOUNDFLAG`; `connected seedId` is that set.  `kicad_add_net`
(kicad.c:159-250) first clears `FOUNDFLAG` everywhere and runs the
lookup, then sweeps all board objects in iteration order (element pads
and pins, vias, then per-copper-layer lines, arcs, polygons), entering
each found, unvisited one into the table. -/
def kicadAddNet (objs : List ℕ) (connected : ℕ → List ℕ) (seedId : ℕ)
    (net : Option ℕ) (st : ExportState) : ExportState :=
  objs.foldl (addNetStep (connected seedId) net) { st with found := connected seedId }

/-- `kicad_get_net_assign` (kicad.c:252-263): linear scan, first
matching entry wins; `none` when the object has no entry (the C code
returns the NULL pointer). -/
def kicadGetNetAssign : List (ℕ × Option ℕ) → ℕ → Option (Option ℕ)
  | [], _ => none
  | (o, n) :: rest, item => if o = item then some n else kicadGetNetAssign rest item

/-- The per-pin/pad net resolution of `kicad_print` (kicad.c:690-713):
a visited object short-circuits to the table lookup — the name-based
netlist scan (whose outcome is the seed's `nameNet` field) is not even
consulted; an unvisited one triggers `kicad_add_net` with the
name-scan's net.  Returns the new state and the net descriptor used for
printing. -/
def processSeed (objs : List ℕ) (connected : ℕ → List ℕ) (seed : Seed)
    (st : ExportState) : ExportState × Option ℕ :=
  if seed.id ∈ st.visited then
    (st, (kicadGetNetAssign st.netAssign seed.id).getD none)
  else
    (kicadAddNet objs connected seed.id seed.nameNet st, seed.nameNet)

/-- The net id printed for a resolved descriptor: menu `i` was stored
as `&net_descs[i+1]` (net id `i+1`), the NULL descriptor falls back to
`&net_descs[0]` (net id 0, kicad.c:715-718). -/
def resolveNetId : Option ℕ → ℕ
  | none => 0
  | some i => i + 1

/-- One pin/pad iteration of the element loop of `kicad_print`: resolve
the net, then print the pad block. -/
def processSeedOut (objs : List ℕ) (connected : ℕ → List ℕ)
    (st : ExportState) (seed : Seed) : ExportState :=
  let r := processSeed objs connected seed st
  { r.1 with output := r.1.output ++ [Chunk.padOut seed.id (resolveNetId r.2)] }

/-- The blocks emitted for one polygon of a copper layer
(kicad.c:1100-1229). -/
def polygonChunks (p : KPolygon) : List Chunk :=
  Chunk.filledZone (filledZonePoints p) ::
    (keepoutBlocks p.points p.holeIndex).map Chunk.keepoutZone

/-- The board data `kicad_print` walks, at the granularity the claims
need: the netlist menu names, the element pins/pads in element-loop
order, all board objects in `kicad_add_net` iteration order, the
connectivity oracle, the vias, and the copper-layer polygons. -/
structure BoardModel where
  menuNames : List (List Char)
  seeds : List Seed
  objects : List ℕ
  connected : ℕ → List ℕ
  vias : List ℕ
  polygons : List KPolygon

/-- The fixed document prefix (kicad.c:461-538): header, page
settings, layer table, then the whole net table. -/
def preChunks (board : BoardModel) : List Chunk :=
  [Chunk.header, Chunk.pageSettings, Chunk.layersTable] ++ netTableChunks board.menuNames

/-- The state after the prefix has been written (kicad.c:507-538). -/
def stagePre (board : BoardModel) (st0 : ExportState) : ExportState :=
  { st0 with output := st0.output ++ preChunks board }

/-- The state after the element loop (kicad.c:540-938): every pin and
pad has been resolved and printed. -/
def stageSeeds (board : BoardModel) (st0 : ExportState) : ExportState :=
  board.seeds.foldl (processSeedOut board.objects board.connected) (stagePre board st0)

/-- The via blocks (kicad.c:940-968): each via's net is looked up in
the assignment table as it stands after the element loop. -/
def viaChunks (board : BoardModel) (st0 : ExportState) : List Chunk :=
  board.vias.map (fun v =>
    Chunk.viaOut v (resolveNetId
      ((kicadGetNetAssign (stageSeeds board st0).netAssign v).getD none)))

/-- The success path of `kicad_print` after the `fopen` check
(kicad.c:461-1346): write prefix, elements, vias, polygon zones and the
closing parenthesis, then clear `VISITFLAG` on all objects and free
both tables.  `FOUNDFLAG` is not cleared at the end. -/
def kicadPrintSuccess (board : BoardModel) (st0 : ExportState) : ExportState :=
  { stageSeeds board st0 with
      output := (stageSeeds board st0).output ++ viaChunks board st0 ++
        (board.polygons.map polygonChunks).flatten ++ [Chunk.closing]
      visited := []
      netAssignFreed := true
      netDescsFreed := true }

/-- `kicad_print` (kicad.c:438-1347).  The two tables are `calloc`ed
before the `fopen`; when the file cannot be opened the function logs
and returns 1 at once — no flag has been touched and nothing has been
written (the allocated tables are leaked, faithfully to the code).  On
success the document is produced and the function returns 0. -/
def kicadPrint (fopenOk : Bool) (board : BoardModel)
    (visited0 found0 : List ℕ) : ℕ × ExportState :=
  let st0 := initExportState visited0 found0
  if fopenOk = false then (1, st0)
  else (0, kicadPrintSuccess board st0)

/-- The output file name `kicad_do_export` settles on
(kicad.c:1368-1371): the option string when given, else
`"pcb-out.kicad_pcb"`. -/
def effectiveFilename : Option String → String
  | none => "pcb-out.kicad_pcb"
  | some s => s

/-- The at-most-once invariant of the assignment table: its keys are
distinct, and every key is a visited object. -/
def assignInv (st : ExportState) : Prop :=
  (st.netAssign.map Prod.fst).Nodup ∧
    ∀ o ∈ st.netAssign.map Prod.fst, o ∈ st.visited

/-- A netlist name of exactly 16 characters, for the C10 counterexample. -/
def nm16 : List Char :=
  ['A', 'B', 'C', 'D', 'E', 'F', 'G', 'H', 'I', 'J', 'K', 'L', 'M', 'N', 'O', 'P']

/-- A netlist name of 17 characters, for the C10 witness. -/
def nm17 : List Char :=
  ['A', 'B', 'C', 'D', 'E', 'F', 'G', 'H', 'I', 'J', 'K', 'L', 'M', 'N', 'O', 'P', 'Q']

/-- A one-seed board for the C1 witness: one netlist menu, one pin. -/
def boardC1 : BoardModel :=
  { menuNames := [['n']], seeds := [⟨0, some 0⟩], objects := [0]
    connected := fun _ => [0], vias := [], polygons := [] }

/-- A one-pin board for the C8 counterexample: empty netlist, one pin
that is its own connected component. -/
def boardC8 : BoardModel :=
  { menuNames := [], seeds := [⟨0, none⟩], objects := [0]
    connected := fun _ => [0], vias := [], polygons := [] }

/-- A trivial interpretation of `atan2`-in-degrees, used to instantiate
the C3 witness (the theorem holds for every interpretation). -/
def atanZero : ℚ → ℚ → ℚ := fun _ _ => 0

/-- The two-pin element of the C3 witness: pins "1" at the mark and "2"
at offset (3, 0), mounted on the front. -/
def elemC3 : KElement :=
  { markX := 0, markY := 0, front := true, fixedRotation := none
    pins := [⟨['1'], 0, 0⟩, ⟨['2'], 3, 0⟩], pads := [] }

/-- The candidate the C3 witness scan settles on: pin "2". -/
def candC3 : RefCand := ⟨['2'], 3, 0, 0⟩

/-- The element of the C4 witness: a single pin. -/
def elemC4 : KElementGeom :=
  { lines := [], pins := [⟨10, 10, 2⟩], pads := [], arcs := [] }

/-- A five-point polygon with one hole starting at index 3, for the C6
witness. -/
def polyC6 : KPolygon :=
  { points := [(0, 0), (9, 0), (9, 9), (3, 3), (3, 4)], holeIndex := [3] }

/-! ## Shared helper lemmas -/

theorem kicadNetEntries_id_le (names : List (List Char)) :
    ∀ (k : ℕ) (d : NetDescriptor), d ∈ kicadNetEntries k names → k ≤ d.net_id := by
  induction names with
  | nil => intro k d hd; simp [kicadNetEntries] at hd
  | cons nm rest ih =>
    intro k d hd
    rcases List.mem_cons.mp hd with rfl | hd
    · exact Nat.le_refl k
    · exact Nat.le_of_succ_le (ih (k + 1) d hd)

theorem getLayerGroupAux_findIdx (layer : ℕ) :
    ∀ (l : List (List ℕ)) (g : ℕ),
      getLayerGroupAux layer g l = g + l.findIdx (fun ent => decide (layer ∈ ent)) := by
  intro l
  induction l with
  | nil => intro g; simp [getLayerGroupAux, List.findIdx_nil]
  | cons ent rest ih =>
    intro g
    by_cases h : layer ∈ ent
    · simp [getLayerGroupAux, h, List.findIdx_cons]
    · rw [getLayerGroupAux, if_neg h, ih (g + 1), List.findIdx_cons]
      simp [h]
      omega

theorem addNetStep_output (found : List ℕ) (net : Option ℕ) (s : ExportState) (obj : ℕ) :
    (addNetStep found net s obj).output = s.output := by
  unfold addNetStep
  split <;> rfl

theorem foldl_addNetStep_output (found : List ℕ) (net : Option ℕ) (objs : List ℕ) :
    ∀ s : ExportState, (objs.foldl (addNetStep found net) s).output = s.output := by
  induction objs with
  | nil => intro s; rfl
  | cons o rest ih => intro s; rw [List.foldl_cons, ih, addNetStep_output]

theorem kicadAddNet_output (objs : List ℕ) (connected : ℕ → List ℕ) (seedId : ℕ)
    (net : Option ℕ) (st : ExportState) :
    (kicadAddNet objs connected seedId net st).output = st.output := by
  unfold kicadAddNet
  rw [foldl_addNetStep_output]

theorem processSeed_fst_output (objs : List ℕ) (connected : ℕ → List ℕ) (seed : Seed)
    (st : ExportState) :
    (processSeed objs connected seed st).1.output = st.output := by
  unfold processSeed
  split
  · rfl
  · exact kicadAddNet_output _ _ _ _ _

theorem processSeedOut_output (objs : List ℕ) (connected : ℕ → List ℕ)
    (st : ExportState) (seed : Seed) :
    (processSeedOut objs connected st seed).output =
      st.output ++ [Chunk.padOut seed.id (resolveNetId (processSeed objs connected seed st).2)] := by
  show (processSeed objs connected seed st).1.output ++
      [Chunk.padOut seed.id (resolveNetId (processSeed objs connected seed st).2)] =
    st.output ++ [Chunk.padOut seed.id (resolveNetId (processSeed objs connected seed st).2)]
  rw [processSeed_fst_output]

theorem seedsFold_output (objs : List ℕ) (connected : ℕ → List ℕ) (seeds : List Seed) :
    ∀ st : ExportState, ∃ extra : List Chunk,
      (seeds.foldl (processSeedOut objs connected) st).output = st.output ++ extra ∧
        ∀ c ∈ extra, isNetChunk c = false := by
  induction seeds with
  | nil => intro st; exact ⟨[], by simp, by simp⟩
  | cons s rest ih =>
    intro st
    obtain ⟨extra, hout, hpad⟩ := ih (processSeedOut objs connected st s)
    refine ⟨Chunk.padOut s.id (resolveNetId (processSeed objs connected s st).2) :: extra, ?_, ?_⟩
    · rw [List.foldl_cons, hout, processSeedOut_output]
      simp
    · intro c hc
      rcases List.mem_cons.mp hc with rfl | hc
      · rfl
      · exact hpad c hc

theorem filter_netTableChunks (names : List (List Char)) :
    (netTableChunks names).filter isNetChunk = netTableChunks names := by
  rw [List.filter_eq_self]
  intro c hc
  obtain ⟨d, _, rfl⟩ := List.mem_map.mp hc
  rfl

theorem isNetChunk_polygonChunks (p : KPolygon) :
    ∀ c ∈ polygonChunks p, isNetChunk c = false := by
  intro c hc
  rcases List.mem_cons.mp hc with rfl | hc
  · rfl
  · obtain ⟨pts, _, rfl⟩ := List.mem_map.mp hc
    rfl

theorem filter_isNetChunk_viaChunks (board : BoardModel) (st0 : ExportState) :
    (viaChunks board st0).filter isNetChunk = [] := by
  rw [List.filter_eq_nil_iff]
  intro c hc
  obtain ⟨_, _, rfl⟩ := List.mem_map.mp hc
  simp [isNetChunk]

theorem filter_isNetChunk_zoneChunks (ps : List KPolygon) :
    ((ps.map polygonChunks).flatten).filter isNetChunk = [] := by
  rw [List.filter_eq_nil_iff]
  intro c hc
  obtain ⟨l, hl, hcl⟩ := List.mem_flatten.mp hc
  obtain ⟨p, _, rfl⟩ := List.mem_map.mp hl
  simp [isNetChunk_polygonChunks p c hcl]

theorem kicadPrintSuccess_output_filter (board : BoardModel) (st0 : ExportState)
    (h0 : st0.output = []) :
    (kicadPrintSuccess board st0).output.filter isNetChunk = netTableChunks board.menuNames := by
  obtain ⟨extra, hout, hextra⟩ :=
    seedsFold_output board.objects board.connected board.seeds (stagePre board st0)
  show ((stageSeeds board st0).output ++ viaChunks board st0 ++
      (board.polygons.map polygonChunks).flatten ++ [Chunk.closing]).filter isNetChunk = _
  rw [show (stageSeeds board st0).output = (stagePre board st0).output ++ extra from hout]
  rw [show (stagePre board st0).output = st0.output ++ preChunks board from rfl, h0]
  simp only [List.nil_append, List.filter_append]
  rw [show List.filter isNetChunk extra = [] from
      List.filter_eq_nil_iff.mpr (fun c hc => by simp [hextra c hc])]
  rw [filter_isNetChunk_viaChunks, filter_isNetChunk_zoneChunks]
  rw [show List.filter isNetChunk (preChunks board) =
      List.filter isNetChunk [Chunk.header, Chunk.pageSettings, Chunk.layersTable] ++
        List.filter isNetChunk (netTableChunks board.menuNames) from List.filter_append _ _]
  rw [filter_netTableChunks]
  simp [isNetChunk]

theorem kicadPrint_output_filter (board : BoardModel) (v f : List ℕ) :
    (kicadPrint true board v f).2.output.filter isNetChunk = netTableChunks board.menuNames := by
  show (kicadPrintSuccess board (initExportState v f)).output.filter isNetChunk = _
  exact kicadPrintSuccess_output_filter board (initExportState v f) rfl

/-! ## Claim theorems -/

/-- C1 counterexample: on the board with an empty netlist the first net
table entry is `(net 0 "0")` — the printed name, even after trimming
leading spaces, is the one-character string "0", not the empty
string. -/
theorem c1_counterexample :
    (kicadNetTable []).head? = some ⟨0, ['0']⟩ ∧ trimLeadingSpaces ['0'] ≠ [] := by
  decide

/-- C1 (amended): in the exported document the net table begins with
net id 0, emitted before every other net entry — all later entries
carry ids at least 1, and the document's net-entry lines are exactly
the net table in order — but the name printed for net 0 is the string
"0", not the empty string. -/
theorem c1_net_zero_first (names : List (List Char)) (board : BoardModel) (v f : List ℕ) :
    (kicadNetTable names).head? = some ⟨0, ['0']⟩ ∧
    (∀ d ∈ (kicadNetTable names).tail, 1 ≤ d.net_id) ∧
    (kicadPrint true board v f).2.output.filter isNetChunk = netTableChunks board.menuNames := by
  refine ⟨rfl, ?_, kicadPrint_output_filter board v f⟩
  intro d hd
  exact kicadNetEntries_id_le names 1 d hd

/-- C1 witness: the theorem applied to a concrete one-net board. -/
theorem c1_witness :
    (kicadNetTable [['n']]).head? = some ⟨0, ['0']⟩ ∧
    1 ≤ (⟨1, ['n']⟩ : NetDescriptor).net_id ∧
    (kicadPrint true boardC1 [] []).2.output.filter isNetChunk = netTableChunks boardC1.menuNames :=
  ⟨(c1_net_zero_first [['n']] boardC1 [] []).1,
   (c1_net_zero_first [['n']] boardC1 [] []).2.1 ⟨1, ['n']⟩ (by decide),
   (c1_net_zero_first [['n']] boardC1 [] []).2.2⟩

/-- C9 counterexample: with two groups `[[0], [1]]` and the unmatched
layer 5, the resolver returns 2, the number of groups — not 1, the
index of the last examined group. -/
theorem c9_counterexample :
    getLayerGroupNumberByNumber [[0], [1]] 5 = [[0], [1]].length ∧
      getLayerGroupNumberByNumber [[0], [1]] 5 ≠ [[0], [1]].length - 1 := by
  decide

/-- C9 (amended): the layer-to-group resolver is a deterministic total
function — it scans the group table in order and returns the first
group containing the layer index — and for a layer index contained in
no group it does not crash but returns the loop bound itself (the
number of groups, `MAX_LAYER`), which is one past the last examined
group. -/
theorem c9_group_resolver (groups : List (List ℕ)) (layer : ℕ) :
    getLayerGroupNumberByNumber groups layer =
      groups.findIdx (fun ent => decide (layer ∈ ent)) ∧
    ((∀ ent ∈ groups, layer ∉ ent) →
      getLayerGroupNumberByNumber groups layer = groups.length) := by
  constructor
  · rw [getLayerGroupNumberByNumber, getLayerGroupAux_findIdx layer groups 0, Nat.zero_add]
  · intro hnone
    rw [getLayerGroupNumberByNumber, getLayerGroupAux_findIdx layer groups 0, Nat.zero_add]
    exact List.findIdx_eq_length_of_false (fun x hx => by simp [hnone x hx])

/-- C9 witness: the theorem applied to the two-group table and the
unmatched layer 5. -/
theorem c9_witness :
    (∀ ent ∈ [[0], [1]], (5 : ℕ) ∉ ent) ∧
      getLayerGroupNumberByNumber [[0], [1]] 5 = [[0], [1]].length :=
  ⟨by decide, (c9_group_resolver [[0], [1]] 5).2 (by decide)⟩

/-- C10 counterexample: a netlist name of exactly 16 characters is
stored whole and emitted in full, contradicting "names of 16 or more
characters are silently truncated rather than emitted in full". -/
theorem c10_counterexample :
    nm16.length = 16 ∧ kicadNetEntries 1 [nm16] = [⟨1, nm16⟩] := by
  decide

/-- C10 (amended): every net entry stores exactly the first 16
characters of the space-trimmed netlist name (so at most 16
characters); names of MORE than 16 characters are silently truncated
rather than emitted in full, while a 16-character name is still emitted
whole. -/
theorem c10_net_name_truncation (names : List (List Char)) (k : ℕ) :
    kicadNetEntries k names =
      (List.enumFrom k names).map
        (fun p => ⟨p.1, (trimLeadingSpaces p.2).take 16⟩) ∧
    (∀ d ∈ kicadNetEntries k names, d.net_name.length ≤ 16) ∧
    (∀ nm : List Char, 16 < (trimLeadingSpaces nm).length →
      (trimLeadingSpaces nm).take 16 ≠ trimLeadingSpaces nm) := by
  refine ⟨?_, ?_, ?_⟩
  · induction names generalizing k with
    | nil => rfl
    | cons nm rest ih => simp [kicadNetEntries, List.enumFrom, ih]
  · induction names generalizing k with
    | nil => intro d hd; simp [kicadNetEntries] at hd
    | cons nm rest ih =>
      intro d hd
      rcases List.mem_cons.mp hd with rfl | hd
      · simp
      · exact ih (k + 1) d hd
  · intro nm h heq
    have hlen := congrArg List.length heq
    simp [List.length_take] at hlen
    omega

/-- C10 witness: the theorem applied to a 17-character name, which is
genuinely truncated. -/
theorem c10_witness :
    16 < (trimLeadingSpaces nm17).length ∧
      (trimLeadingSpaces nm17).take 16 ≠ trimLeadingSpaces nm17 :=
  ⟨by decide, (c10_net_name_truncation [] 0).2.2 nm17 (by decide)⟩

/-- C7: the export function returns 1 exactly when the output file
cannot be opened and 0 otherwise; the failure path leaves every
object flag untouched and writes no output byte; and with no output
path supplied the default file name "pcb-out.kicad_pcb" is used. -/
theorem c7_export_entry (board : BoardModel) (v f : List ℕ) (s : String) :
    (kicadPrint false board v f).1 = 1 ∧
    (kicadPrint false board v f).2.output = [] ∧
    (kicadPrint false board v f).2.visited = v ∧
    (kicadPrint false board v f).2.found = f ∧
    (kicadPrint true board v f).1 = 0 ∧
    effectiveFilename none = "pcb-out.kicad_pcb" ∧
    effectiveFilename (some s) = s :=
  ⟨rfl, rfl, rfl, rfl, rfl, rfl, rfl⟩

/-- C8 counterexample: exporting the one-pin board (with all flags
initially clear) leaves the pin's `FOUNDFLAG` set after the successful
return — the last `LookupConnectionByPin` marks are never cleared, so
not every transient flag bit the export set has been cleared again. -/
theorem c8_counterexample :
    (kicadPrint true boardC8 [] []).2.found ≠ [] := by
  decide

/-- C8 (amended): after a successful export the `VISITFLAG` marks have
been cleared on all objects and the derived net table and assignment
table have been released, but the `FOUNDFLAG` marks left by the last
connectivity lookup are NOT cleared, so the board is not entirely
unmodified. -/
theorem c8_cleanup (board : BoardModel) (v f : List ℕ) :
    (kicadPrint true board v f).2.visited = [] ∧
    (kicadPrint true board v f).2.netAssignFreed = true ∧
    (kicadPrint true board v f).2.netDescsFreed = true :=
  ⟨rfl, rfl, rfl⟩

theorem addNet_fold_invariant (found : List ℕ) (net : Option ℕ) (objs : List ℕ) :
    ∀ s : ExportState,
      (s.netAssign.map Prod.fst).Nodup →
      (∀ o ∈ s.netAssign.map Prod.fst, o ∈ s.visited) →
      (((objs.foldl (addNetStep found net) s).netAssign.map Prod.fst).Nodup ∧
       (∀ o ∈ (objs.foldl (addNetStep found net) s).netAssign.map Prod.fst,
          o ∈ (objs.foldl (addNetStep found net) s).visited) ∧
       ∃ extra, (objs.foldl (addNetStep found net) s).netAssign = s.netAssign ++ extra ∧
         ∀ e ∈ extra, e.2 = net) := by
  induction objs with
  | nil => intro s h1 h2; exact ⟨h1, h2, [], by simp, by simp⟩
  | cons ob rest ih =>
    intro s h1 h2
    rw [List.foldl_cons]
    by_cases hc : ob ∉ s.visited ∧ ob ∈ found
    · have hstep : addNetStep found net s ob =
          { s with visited := ob :: s.visited, netAssign := s.netAssign ++ [(ob, net)] } := by
        unfold addNetStep
        rw [if_pos hc]
      rw [hstep]
      have hob : ob ∉ s.netAssign.map Prod.fst := fun hmem => hc.1 (h2 ob hmem)
      have h1b : ((s.netAssign ++ [(ob, net)]).map Prod.fst).Nodup := by
        rw [List.map_append]
        simp [List.nodup_append, h1, hob]
      have h2b : ∀ o ∈ (s.netAssign ++ [(ob, net)]).map Prod.fst, o ∈ ob :: s.visited := by
        intro o ho
        rw [List.map_append] at ho
        rcases List.mem_append.mp ho with ho | ho
        · exact List.mem_cons_of_mem _ (h2 o ho)
        · simp at ho
          simp [ho]
      obtain ⟨hn, hv, extra2, ha, he⟩ :=
        ih { s with visited := ob :: s.visited, netAssign := s.netAssign ++ [(ob, net)] } h1b h2b
      refine ⟨hn, hv, (ob, net) :: extra2, ?_, ?_⟩
      · rw [ha]
        simp
      · intro e hee
        rcases List.mem_cons.mp hee with rfl | hee
        · rfl
        · exact he e hee
    · have hstep : addNetStep found net s ob = s := by
        unfold addNetStep
        rw [if_neg hc]
      rw [hstep]
      exact ih s h1 h2

theorem processSeedOut_assignInv (objs : List ℕ) (conn : ℕ → List ℕ)
    (st : ExportState) (seed : Seed) (h : assignInv st) :
    assignInv (processSeedOut objs conn st seed) := by
  have hr : assignInv (processSeed objs conn seed st).1 := by
    unfold processSeed
    split
    · exact h
    · have h3 := addNet_fold_invariant (conn seed.id) seed.nameNet objs
        { st with found := conn seed.id } h.1 h.2
      exact ⟨h3.1, h3.2.1⟩
  exact ⟨hr.1, hr.2⟩

theorem seedsFold_assignInv (objs : List ℕ) (conn : ℕ → List ℕ) (seeds : List Seed) :
    ∀ st : ExportState, assignInv st →
      assignInv (seeds.foldl (processSeedOut objs conn) st) := by
  induction seeds with
  | nil => intro st h; exact h
  | cons s rest ih =>
    intro st h
    rw [List.foldl_cons]
    exact ih _ (processSeedOut_assignInv objs conn st s h)

/-- C2: within one export pass every board object enters the
net-assignment table at most once — the table keys stay distinct and
every key is a visited object, an invariant every `kicad_add_net` call
preserves; all objects one flood fill discovers and records receive the
seed's own net descriptor; a seed that is already visited
short-circuits to the table lookup before the name-based netlist scan,
so the state is left untouched and the first assignment wins; and over
a whole successful export the table keys are distinct. -/
theorem c2_single_assignment (objs : List ℕ) (connected : ℕ → List ℕ) (seed : Seed)
    (net : Option ℕ) (st : ExportState) (board : BoardModel) (v f : List ℕ)
    (hinv : assignInv st) :
    assignInv (kicadAddNet objs connected seed.id net st) ∧
    (∃ extra, (kicadAddNet objs connected seed.id net st).netAssign = st.netAssign ++ extra ∧
      ∀ e ∈ extra, e.2 = net) ∧
    (seed.id ∈ st.visited →
      processSeed objs connected seed st =
        (st, (kicadGetNetAssign st.netAssign seed.id).getD none)) ∧
    ((kicadPrint true board v f).2.netAssign.map Prod.fst).Nodup := by
  have h3 := addNet_fold_invariant (connected seed.id) net objs
    { st with found := connected seed.id } hinv.1 hinv.2
  refine ⟨⟨h3.1, h3.2.1⟩, h3.2.2, ?_, ?_⟩
  · intro hvis
    unfold processSeed
    rw [if_pos hvis]
  · have hpre : assignInv (stagePre board (initExportState v f)) := by
      constructor <;> simp [stagePre, initExportState]
    exact (seedsFold_assignInv board.objects board.connected board.seeds _ hpre).1

/-- C2 witness: the theorem applied to a concrete one-object state
whose only object is already visited. -/
theorem c2_witness :
    assignInv (initExportState [7] []) ∧
    (assignInv (kicadAddNet [7] (fun _ => [7]) (Seed.mk 7 (some 0)).id (some 0)
        (initExportState [7] [])) ∧
     (∃ extra,
        (kicadAddNet [7] (fun _ => [7]) (Seed.mk 7 (some 0)).id (some 0)
            (initExportState [7] [])).netAssign =
          (initExportState [7] []).netAssign ++ extra ∧
        ∀ e ∈ extra, e.2 = some 0) ∧
     ((Seed.mk 7 (some 0)).id ∈ (initExportState [7] []).visited →
        processSeed [7] (fun _ => [7]) (Seed.mk 7 (some 0)) (initExportState [7] []) =
          (initExportState [7] [],
           (kicadGetNetAssign (initExportState [7] []).netAssign (Seed.mk 7 (some 0)).id).getD
             none)) ∧
     ((kicadPrint true boardC1 [] []).2.netAssign.map Prod.fst).Nodup) :=
  ⟨⟨by simp [initExportState], by simp [initExportState]⟩,
   c2_single_assignment [7] (fun _ => [7]) (Seed.mk 7 (some 0)) (some 0)
     (initExportState [7] []) boardC1 [] []
     ⟨by simp [initExportState], by simp [initExportState]⟩⟩

theorem keepoutBlocks_length (pts : List (ℤ × ℤ)) :
    ∀ hs : List ℕ, (keepoutBlocks pts hs).length = hs.length := by
  intro hs
  induction hs with
  | nil => rfl
  | cons h t ih =>
    cases t with
    | nil => rfl
    | cons h2 rest => simp [keepoutBlocks] at ih ⊢; omega

theorem sliceK_append_drop (pts : List (ℤ × ℤ)) (a b : ℕ) (hab : a ≤ b) :
    sliceK pts a b ++ pts.drop b = pts.drop a := by
  have h1 : pts.drop b = List.drop (b - a) (pts.drop a) := by
    rw [List.drop_drop]
    congr 1
    omega
  rw [sliceK, h1, List.take_append_drop]

theorem keepoutBlocks_flatten (pts : List (ℤ × ℤ)) :
    ∀ (hs : List ℕ) (h : ℕ), List.Chain' (· ≤ ·) (h :: hs) →
      (∀ x ∈ h :: hs, x ≤ pts.length) →
      (keepoutBlocks pts (h :: hs)).flatten = pts.drop h := by
  intro hs
  induction hs with
  | nil =>
    intro h _ hb
    show (sliceK pts h pts.length :: ([] : List (List (ℤ × ℤ)))).flatten = pts.drop h
    rw [List.flatten_cons, List.flatten_nil, List.append_nil, sliceK]
    apply List.take_of_length_le
    simp
  | cons h2 rest ih =>
    intro h hchain hb
    have hh2 : h ≤ h2 := (List.chain'_cons.mp hchain).1
    have hch2 : List.Chain' (· ≤ ·) (h2 :: rest) := (List.chain'_cons.mp hchain).2
    show (sliceK pts h h2 :: keepoutBlocks pts (h2 :: rest)).flatten = pts.drop h
    rw [List.flatten_cons]
    rw [ih h2 hch2 (fun x hx => hb x (List.mem_cons_of_mem _ hx))]
    exact sliceK_append_drop pts h h2 hh2

/-- C6: for every polygon whose hole start indices are sorted and in
range, the exporter emits exactly one filled-zone block and exactly one
keepout block per hole (H + 1 blocks in total), and the emitted blocks'
point lists concatenate, in order, to exactly the polygon's point list
— so every point appears in exactly one block: the filled zone gets
precisely the outer boundary (the points before the first hole index),
each keepout precisely its hole's points. -/
theorem c6_polygon_partition (p : KPolygon)
    (hchain : List.Chain' (· ≤ ·) p.holeIndex)
    (hbound : ∀ h ∈ p.holeIndex, h ≤ p.points.length) :
    (polyZoneBlocks p).length = p.holeIndex.length + 1 ∧
    (polyZoneBlocks p).flatten = p.points ∧
    (polygonChunks p).length = p.holeIndex.length + 1 := by
  refine ⟨?_, ?_, ?_⟩
  · show (filledZonePoints p :: keepoutBlocks p.points p.holeIndex).length = _
    simp [keepoutBlocks_length]
  · show (filledZonePoints p :: keepoutBlocks p.points p.holeIndex).flatten = p.points
    cases hh : p.holeIndex with
    | nil => simp [filledZonePoints, hh, keepoutBlocks]
    | cons h rest =>
      rw [List.flatten_cons]
      rw [keepoutBlocks_flatten p.points rest h (hh ▸ hchain) (hh ▸ hbound)]
      rw [show filledZonePoints p = p.points.take h by rw [filledZonePoints, hh]]
      exact List.take_append_drop h p.points
  · show (Chunk.filledZone (filledZonePoints p) ::
        (keepoutBlocks p.points p.holeIndex).map Chunk.keepoutZone).length = _
    simp [keepoutBlocks_length]

/-- C6 witness: the theorem applied to a concrete five-point polygon
with one hole. -/
theorem c6_witness :
    (List.Chain' (· ≤ ·) polyC6.holeIndex ∧
      ∀ h ∈ polyC6.holeIndex, h ≤ polyC6.points.length) ∧
    ((polyZoneBlocks polyC6).length = polyC6.holeIndex.length + 1 ∧
     (polyZoneBlocks polyC6).flatten = polyC6.points ∧
     (polygonChunks polyC6).length = polyC6.holeIndex.length + 1) :=
  ⟨⟨by simp [polyC6], by decide⟩, c6_polygon_partition polyC6 (by simp [polyC6]) (by decide)⟩

theorem boxUnion_sentinel (M : ℤ) (b : Box)
    (h1 : b.x1 ≤ M) (h2 : b.y1 ≤ M) (h3 : 0 ≤ b.x2) (h4 : 0 ≤ b.y2) :
    boxUnion ⟨M, M, 0, 0⟩ b = b := by
  cases b
  simp only [boxUnion, Box.mk.injEq] at *
  omega

/-- C4: for every element whose primitives (outline lines, pins, pads,
arcs) produce at least one box with coordinates inside the board range,
the geometry kernel's element bounding box — the `ELEMENT_TYPE` case of
`GetObjectBoundingBox`, i.e. `SetElementBoundingBox`'s fold widened by
the reference-designator text box — equals the union of the bounding
boxes of all outline lines, pins, pads and arcs together with the
reference-designator text box (value and footprint-name text boxes
enter nowhere). -/
theorem c4_element_bbox (maxCoordV : ℤ) (cosd sind : ℤ → ℚ) (e : KElementGeom)
    (refdesBox : Box) (b : Box) (bs : List Box)
    (hbs : elementPrimBoxes cosd sind e = b :: bs)
    (hb : b.x1 ≤ maxCoordV ∧ b.y1 ≤ maxCoordV ∧ 0 ≤ b.x2 ∧ 0 ≤ b.y2) :
    getObjectBoundingBoxElement maxCoordV cosd sind e refdesBox =
      unionBoxes b (bs ++ [refdesBox]) := by
  have hset : setElementBoundingBox maxCoordV cosd sind e = List.foldl boxUnion b bs := by
    unfold setElementBoundingBox
    rw [hbs, List.foldl_cons, boxUnion_sentinel maxCoordV b hb.1 hb.2.1 hb.2.2.1 hb.2.2.2]
  unfold getObjectBoundingBoxElement
  rw [hset]
  unfold unionBoxes
  rw [List.foldl_append, List.foldl_cons, List.foldl_nil]
  generalize List.foldl boxUnion b bs = B
  cases B
  cases refdesBox
  simp only [boxUnion, Box.mk.injEq]
  refine ⟨?_, ?_, ?_, ?_⟩ <;> (split <;> omega)

/-- C4 witness: the theorem applied to a one-pin element. -/
theorem c4_witness :
    (elementPrimBoxes (fun _ => (0 : ℚ)) (fun _ => (0 : ℚ)) elemC4 = [Box.mk 9 9 11 11]) ∧
    ((Box.mk 9 9 11 11).x1 ≤ 1000 ∧ (Box.mk 9 9 11 11).y1 ≤ 1000 ∧
      0 ≤ (Box.mk 9 9 11 11).x2 ∧ 0 ≤ (Box.mk 9 9 11 11).y2) ∧
    getObjectBoundingBoxElement 1000 (fun _ => (0 : ℚ)) (fun _ => (0 : ℚ)) elemC4
        (Box.mk 0 0 5 5) =
      unionBoxes (Box.mk 9 9 11 11) ([] ++ [Box.mk 0 0 5 5]) :=
  ⟨by decide, by decide,
   c4_element_bbox 1000 (fun _ => (0 : ℚ)) (fun _ => (0 : ℚ)) elemC4 (Box.mk 0 0 5 5)
     (Box.mk 9 9 11 11) [] (by decide) (by decide)⟩

/-- C5 counterexample: for the concrete half-circle arc `arcC5` (start
angle 0, delta 180, radius 1, thickness 2), the box `SetArcBoundingBox`
stores is NOT the box the claim describes: the claim's 90-degree
extension would raise the top edge to include the arc's apex, but the
code samples no interior right angles, so the stored box stops at the
endpoints' y coordinate. -/
theorem c5_counterexample :
    setArcBoundingBox cosRight sinRight arcC5 ≠ claimedArcBoundingBox cosRight sinRight arcC5 := by
  have hends : getArcEnds cosRight sinRight arcC5 = ⟨-1, 0, 1, 0⟩ := by
    norm_num [getArcEnds, arcC5, cosRight, sinRight, ctrunc]
  have h1 : setArcBoundingBox cosRight sinRight arcC5 = ⟨-2, -1, 2, 1⟩ := by
    unfold setArcBoundingBox
    rw [hends]
    norm_num [arcC5, min_def, max_def]
  have hm : mult90StrictlyBetween arcC5.startAngle (arcC5.startAngle + arcC5.delta) = [90] := by
    decide
  have h2 : claimedArcBoundingBox cosRight sinRight arcC5 = ⟨-2, -1, 2, 2⟩ := by
    unfold claimedArcBoundingBox
    rw [hends, hm]
    norm_num [arcC5, extendBoxAngle, inflateBox, boxUnion, pointBox, cosRight, sinRight,
      ctrunc, min_def, max_def]
  rw [h1, h2]
  decide

/-- C5 (amended): `SetArcBoundingBox` computes the stored arc bounding
box from the two arc endpoints alone — the normalised union of the two
endpoint point-boxes, padded by half the thickness on each side — with
no extension at interior multiples of 90 degrees; the right-angle
sampling exists only in the element bounding-box arc contribution
(`SetElementBoundingBox`, embedded as `elementArcBox`), which in turn
adds no thickness padding. -/
theorem c5_arc_endpoints_box (cosd sind : ℤ → ℚ) (arc : KArc) :
    setArcBoundingBox cosd sind arc =
      inflateBox
        (boxUnion (pointBox (getArcEnds cosd sind arc).x1 (getArcEnds cosd sind arc).y1)
          (pointBox (getArcEnds cosd sind arc).x2 (getArcEnds cosd sind arc).y2))
        ((arc.thickness / 2 : ℕ) : ℤ) :=
  rfl

theorem findTheta_eq_of_chosen (atan2deg : ℚ → ℚ → ℚ) (e : KElement) (c : RefCand)
    (hcnt : 1 < pinCount e) :
    ∀ cands : List (List Char), chosenRefCand atan2deg e cands = some c →
      findThetaLoop atan2deg e cands =
        xyToAngle atan2deg (if e.front then c.x - e.markX else -(c.x - e.markX))
          (c.y - e.markY) (decide (2 < pinCount e)) := by
  intro cands
  induction cands with
  | nil => intro h; simp [chosenRefCand] at h
  | cons nm rest ih =>
    intro h
    simp only [chosenRefCand] at h
    simp only [findThetaLoop]
    cases hm : refMatch atan2deg e nm with
    | none =>
      simp only [hm] at h ⊢
      exact ih h
    | some c0 =>
      simp only [hm] at h ⊢
      have hne : ¬(pinCount e = 1) := by omega
      rw [if_neg hne] at h ⊢
      by_cases hz : (if e.front then c0.x - e.markX else -(c0.x - e.markX)) ≠ 0 ∨
          c0.y - e.markY ≠ 0
      · rw [if_pos hz] at h ⊢
        injection h with h
        subst h
        rfl
      · rw [if_neg hz] at h ⊢
        exact ih h

/-- C3: for every element without a fixed-rotation attribute, with more
than one pin/pad, whose chosen reference pin gives a nonzero offset
vector (the scan only settles on a candidate with nonzero offset in
that case), the rotation is classified with `d = atan2(-pin1y, pin1x)`
in degrees by exactly the claim's buckets (`claimAngleBuckets`, the 2-pin
table when the element has exactly two pins and the multi-pin table when
it has more), where the X offset `pin1x` has been negated first exactly
when the element is back-mounted. -/
theorem c3_rotation_classification (atan2deg : ℚ → ℚ → ℚ) (e : KElement) (c : RefCand)
    (hfix : e.fixedRotation = none)
    (hchosen : chosenRefCand atan2deg e refNames = some c)
    (hcnt : 1 < pinCount e) :
    kicadGetRotation atan2deg e =
      claimAngleBuckets
        (atan2deg (-(c.y - e.markY)) (if e.front then c.x - e.markX else -(c.x - e.markX)))
        (decide (2 < pinCount e)) := by
  simp only [kicadGetRotation, hfix]
  rw [if_pos (show 0 < pinCount e by omega)]
  rw [findTheta_eq_of_chosen atan2deg e c hcnt refNames hchosen]
  rfl

/-- C3 witness: the theorem applied to the concrete two-pin element
`elemC3`, whose chosen reference pin is pin "2" at offset (3, 0). -/
theorem c3_witness :
    elemC3.fixedRotation = none ∧
    chosenRefCand atanZero elemC3 refNames = some candC3 ∧
    1 < pinCount elemC3 ∧
    kicadGetRotation atanZero elemC3 =
      claimAngleBuckets
        (atanZero (-(candC3.y - elemC3.markY))
          (if elemC3.front then candC3.x - elemC3.markX else -(candC3.x - elemC3.markX)))
        (decide (2 < pinCount elemC3)) :=
  ⟨rfl,
   by simp +decide [chosenRefCand, refMatch, pinCand, elemC3, refNames, pinCount, candC3],
   by decide,
   c3_rotation_classification atanZero elemC3 candC3 rfl
     (by simp +decide [chosenRefCand, refMatch, pinCand, elemC3, refNames, pinCount, candC3])
     (by decide)⟩

end Pcb2Kicad
